import Mathlib

/-!
Verification of the GitHub commit-analytics repository.

The repository consists of a React dashboard, an HTTP API client
(`services/api.js`), a mock API client (`services/api-mock.js`), shell
scripts and a PostgreSQL schema (`data/schema.sql`).  The backend that the
spec calls FetchOrchestrator / CommitStore / AnalyticsEngine is not part of
the source tree; where a claim is decided by that backend we model the
missing component from the spec (each such definition carries a doc comment
starting with `Modelled from the spec:`).  Everything else is embedded
directly from the JavaScript sources.
-/

/-! ### Dates as produced by the client-side formatter (services/api.js) -/

/-- A JavaScript `Date`, restricted to its UTC calendar-date part, which is
all `formatDate` in `services/api.js` ever consumes (`toISOString()` is
split at `T` and only the date part kept). -/
structure JSDate where
  year : Nat
  month : Nat
  day : Nat
deriving DecidableEq, Repr

/-- The decimal digit character for `n % 10`. -/
def digitChar (n : Nat) : Char := Char.ofNat (48 + n % 10)

/-- Decimal value of a digit character. -/
def digitVal (c : Char) : Nat := c.toNat - 48

/-- The date part of JavaScript `Date.prototype.toISOString`, modelling the
source expression `date.toISOString().split('T')[0]`: for years 0..9999 the
`YYYY-MM-DD` form (year zero-padded to four digits), otherwise ECMAScript's
expanded-year form `+YYYYYY-MM-DD` (sign and six year digits).  The digit
construction is exact for year < 1000000 — every constructible JavaScript
`Date` has year ≤ 275760 — and for month and day < 100 (real dates are
1..12 and 1..31). -/
def isoDate (dt : JSDate) : String :=
  if dt.year < 10000 then
    String.mk [digitChar (dt.year / 1000), digitChar (dt.year / 100),
      digitChar (dt.year / 10), digitChar dt.year,
      '-', digitChar (dt.month / 10), digitChar dt.month,
      '-', digitChar (dt.day / 10), digitChar dt.day]
  else
    String.mk ['+', digitChar (dt.year / 100000), digitChar (dt.year / 10000),
      digitChar (dt.year / 1000), digitChar (dt.year / 100),
      digitChar (dt.year / 10), digitChar dt.year,
      '-', digitChar (dt.month / 10), digitChar dt.month,
      '-', digitChar (dt.day / 10), digitChar dt.day]

/-- The test `/^\d\x7b4\x7d-\d\x7b2\x7d-\d\x7b2\x7d$/.test(date)` from
`formatDate` in `services/api.js`: exactly ten characters, digits in the
year/month/day positions and dashes in positions 4 and 7. -/
def isYYYYMMDD (s : String) : Bool :=
  match s.data with
  | [y1, y2, y3, y4, h1, m1, m2, h2, d1, d2] =>
    y1.isDigit && y2.isDigit && y3.isDigit && y4.isDigit && h1 == '-' &&
    m1.isDigit && m2.isDigit && h2 == '-' && d1.isDigit && d2.isDigit
  | _ => false

/-- The possible arguments of `formatDate` in `services/api.js`: a falsy
value (`null`/`undefined`), a string, a valid `Date` object, or an Invalid
Date (a `Date` object holding NaN — still truthy and not a string, so it
reaches `toISOString()`, which throws). -/
inductive DateInput where
  | nullish
  | str (s : String)
  | date (d : JSDate)
  | invalidDate

/-- `formatDate` from `services/api.js`.  A falsy input (including the empty
string) yields `''`; a string already in `YYYY-MM-DD` form is returned as
is; any other string goes through `new Date(s).toISOString()` — the host
parser is passed explicitly as `parse`, with `none` standing for an Invalid
Date, on which `toISOString()` throws a RangeError (modelled as the `none`
result); a valid `Date` object is serialised directly and an Invalid Date
object throws. -/
def formatDate (parse : String → Option JSDate) : DateInput → Option String
  | .nullish => some ""
  | .str s =>
    if s = "" then some ""
    else if isYYYYMMDD s then some s
    else (parse s).map isoDate
  | .date d => some (isoDate d)
  | .invalidDate => none

/-- The component ranges of constructible JavaScript `Date`s: ECMAScript's
maximum time value caps the year at 275760, and month/day are 1..12 and
1..31 (day validity is modelled coarsely, irrespective of month length). -/
def validJSDate (d : JSDate) : Prop :=
  d.year ≤ 275760 ∧ 1 ≤ d.month ∧ d.month ≤ 12 ∧ 1 ≤ d.day ∧ d.day ≤ 31

instance : DecidablePred validJSDate := fun d => by unfold validJSDate; infer_instance

/-- A `formatDate` argument that the JavaScript runtime can actually hand
over: any falsy value, string or Invalid Date, and `Date` objects within
the constructible range. -/
def validInput : DateInput → Prop
  | .date d => validJSDate d
  | _ => True

instance : DecidablePred validInput := fun x =>
  match x with
  | .nullish => isTrue trivial
  | .str _ => isTrue trivial
  | .date d => inferInstanceAs (Decidable (validJSDate d))
  | .invalidDate => isTrue trivial

/-- Parser for the date-only ISO forms `toISOString` emits (`YYYY-MM-DD`
and the expanded `+YYYYYY-MM-DD`), on a character list. -/
def isoParseChars : List Char → Option JSDate
  | [y1, y2, y3, y4, h1, m1, m2, h2, d1, d2] =>
    if y1.isDigit && y2.isDigit && y3.isDigit && y4.isDigit && h1 == '-' &&
        m1.isDigit && m2.isDigit && h2 == '-' && d1.isDigit && d2.isDigit then
      if 1000 * digitVal y1 + 100 * digitVal y2 + 10 * digitVal y3 + digitVal y4 ≤ 9999 ∧
          1 ≤ 10 * digitVal m1 + digitVal m2 ∧ 10 * digitVal m1 + digitVal m2 ≤ 12 ∧
          1 ≤ 10 * digitVal d1 + digitVal d2 ∧ 10 * digitVal d1 + digitVal d2 ≤ 31 then
        some (JSDate.mk
          (1000 * digitVal y1 + 100 * digitVal y2 + 10 * digitVal y3 + digitVal y4)
          (10 * digitVal m1 + digitVal m2)
          (10 * digitVal d1 + digitVal d2))
      else none
    else none
  | ['+', y1, y2, y3, y4, y5, y6, h1, m1, m2, h2, d1, d2] =>
    if y1.isDigit && y2.isDigit && y3.isDigit && y4.isDigit && y5.isDigit && y6.isDigit &&
        h1 == '-' && m1.isDigit && m2.isDigit && h2 == '-' && d1.isDigit && d2.isDigit then
      if 100000 * digitVal y1 + 10000 * digitVal y2 + 1000 * digitVal y3 +
            100 * digitVal y4 + 10 * digitVal y5 + digitVal y6 ≤ 275760 ∧
          1 ≤ 10 * digitVal m1 + digitVal m2 ∧ 10 * digitVal m1 + digitVal m2 ≤ 12 ∧
          1 ≤ 10 * digitVal d1 + digitVal d2 ∧ 10 * digitVal d1 + digitVal d2 ≤ 31 then
        some (JSDate.mk
          (100000 * digitVal y1 + 10000 * digitVal y2 + 1000 * digitVal y3 +
            100 * digitVal y4 + 10 * digitVal y5 + digitVal y6)
          (10 * digitVal m1 + digitVal m2)
          (10 * digitVal d1 + digitVal d2))
      else none
    else none
  | _ => none

/-- A concrete host `Date` parser covering the date-only ISO forms
`toISOString` emits, used to instantiate the host-parser parameter of
`formatDate` in witnesses and counterexamples.  Everything else — e.g.
"hello" — yields `none` (an Invalid Date), as the JavaScript parser does;
component ranges are validated as JavaScript does (out-of-range month/day
or a year beyond the maximum time value give an Invalid Date). -/
def isoParse (s : String) : Option JSDate := isoParseChars s.data

/-! ### The HTTP API client (services/api.js) -/

/-- A failed axios call as observed by the catch blocks in
`services/api.js`: all that is ever read from it is
`error.response?.data?.message`, which may be absent. -/
structure ApiFailure where
  responseMessage : Option String
deriving DecidableEq, Repr

/-- Body of a successful `GET /authors` response; the `authors` field may be
absent (the client writes `response.data.authors || []`). -/
structure AuthorsResponse where
  authors : Option (List String)
deriving DecidableEq, Repr

/-- A commit as serialised in a `GET /deviations` response (the fields the
client transform reads). -/
structure CommitDTO where
  sha : String
  author_name : String
  message_title : String
  total_changes : Nat
  author_date : JSDate
deriving DecidableEq, Repr

/-- Body of a successful `GET /deviations` response; the `commits` field may
be absent (the client writes `response.data.commits || []`). -/
structure DeviationsResponse where
  commits : Option (List CommitDTO)
deriving DecidableEq, Repr

/-- The row shape the client transform in `getOutliers` produces for the
outliers table. -/
structure OutlierRow where
  sha : String
  title : String
  linesChanged : Nat
  date : String
  author : String
deriving DecidableEq, Repr

/-- The per-commit transform in `getOutliers` of `services/api.js`. -/
def outlierRow (c : CommitDTO) : OutlierRow :=
  { sha := c.sha, title := c.message_title, linesChanged := c.total_changes,
    date := isoDate c.author_date, author := c.author_name }

/-- `getAuthors` from `services/api.js`, as a function of the outcome of the
HTTP call: on success it returns `response.data.authors || []`, and the
catch block turns any failure into `[]`. -/
def getAuthorsClient : Except ApiFailure AuthorsResponse → List String
  | .ok r => r.authors.getD []
  | .error _ => []

/-- `getOutliers` from `services/api.js`, as a function of the outcome of
the HTTP call: on success it maps the transform over
`response.data.commits || []`, and the catch block turns any failure into
`[]`. -/
def getOutliersClient : Except ApiFailure DeviationsResponse → List OutlierRow
  | .ok r => (r.commits.getD []).map outlierRow
  | .error _ => []

/-- Body of a successful `POST /fetch-data` response. -/
structure FetchResponse where
  status : String
  message : Option String
deriving DecidableEq, Repr

/-- The structured value `fetchData` in `services/api.js` returns to its
caller. -/
structure FetchResult where
  success : Bool
  message : Option String
deriving DecidableEq, Repr

/-- `fetchData` from `services/api.js`, as a function of the outcome of the
HTTP call.  On success it returns
`{success: response.data.status === 'success', message: response.data.message}`;
the catch block returns
`{success: false, message: error.response?.data?.message || 'Failed to fetch data from GitHub'}`.
Both branches return normally, so the outcome is never an uncaught fault. -/
def fetchDataClient : Except ApiFailure FetchResponse → FetchResult
  | .ok r => { success := r.status == "success", message := r.message }
  | .error e =>
    { success := false,
      message := some (e.responseMessage.getD "Failed to fetch data from GitHub") }

/-! ### The mock API client (services/api-mock.js) -/

/-- `authorsList` from `services/api-mock.js`. -/
def authorsList : List String :=
  ["Alice", "Bob", "Carol", "David", "Eve", "Frank", "Grace", "Heidi", "Ivan", "Judy",
   "Mallory", "Niaj", "Olivia", "Peggy", "Rupert", "Sybil", "Trent", "Uma", "Victor", "Wendy"]

/-- Mock `getAuthors` from `services/api-mock.js`: ignores the date range
and returns the fixed author list (the `await delay(400)` only suspends; the
resolved value is this list). -/
def mockGetAuthors (startDate endDate : String) : List String := authorsList

/-- `metricsData.commits` from `services/api-mock.js`. -/
def commitsByDay : List (String × Nat) :=
  [("Sun", 5), ("Mon", 12), ("Tue", 8), ("Wed", 15), ("Thu", 20), ("Fri", 7), ("Sat", 3)]

/-- `metricsData.additions` from `services/api-mock.js`. -/
def additionsByDay : List (String × Nat) :=
  [("Sun", 100), ("Mon", 250), ("Tue", 180), ("Wed", 300), ("Thu", 400), ("Fri", 120), ("Sat", 60)]

/-- `metricsData.deletions` from `services/api-mock.js`. -/
def deletionsByDay : List (String × Nat) :=
  [("Sun", 40), ("Mon", 90), ("Tue", 60), ("Wed", 110), ("Thu", 150), ("Fri", 50), ("Sat", 20)]

/-- `metricsData.total_changes` from `services/api-mock.js`. -/
def totalChangesByDay : List (String × Nat) :=
  [("Sun", 140), ("Mon", 340), ("Tue", 240), ("Wed", 410), ("Thu", 550), ("Fri", 170), ("Sat", 80)]

/-- Property access `metricsData[metricType]` from `services/api-mock.js`:
`some` for the four defined keys, `none` (JavaScript `undefined`)
otherwise. -/
def metricsData : String → Option (List (String × Nat))
  | "commits" => some commitsByDay
  | "additions" => some additionsByDay
  | "deletions" => some deletionsByDay
  | "total_changes" => some totalChangesByDay
  | _ => none

/-- Mock `getMetrics` from `services/api-mock.js`:
`return metricsData[metricType] || metricsData.commits;` — the date range
and author are ignored, and an unknown metric type falls back to the
`commits` table. -/
def mockGetMetrics (startDate endDate metricType : String) (author : Option String) :
    List (String × Nat) :=
  (metricsData metricType).getD commitsByDay

/-- The fixed word list mock `getWordCloud` from `services/api-mock.js`
resolves to. -/
def mockWordCloudData : List (String × Nat) :=
  [("fix", 22), ("feature", 18), ("update", 16), ("add", 15), ("remove", 14),
   ("refactor", 13), ("test", 12), ("optimize", 11), ("docs", 10), ("performance", 9),
   ("security", 8), ("cleanup", 7), ("bug", 6), ("ci", 5), ("lint", 4),
   ("merge", 3), ("release", 2), ("hotfix", 2), ("chore", 1), ("breaking", 1)]

/-- Mock `getWordCloud` from `services/api-mock.js`: ignores the date range
and returns the fixed list. -/
def mockGetWordCloud (startDate endDate : String) : List (String × Nat) :=
  mockWordCloudData

/-! ### CommitStore (data/schema.sql; write path modelled from the spec) -/

/-- A commit as handed to the store for writing (the non-derived columns of
the `commits` table in `data/schema.sql`; `author_date` is abstracted to a
day number). -/
structure Commit where
  sha : String
  author_name : String
  author_email : Option String
  author_date : Nat
  message_title : String
  message_body : Option String
  additions : Nat
  deletions : Nat
  repository : String
deriving DecidableEq, Repr

/-- A row of the `commits` table in `data/schema.sql`, including the derived
`total_changes` column. -/
structure StoredCommit where
  sha : String
  author_name : String
  author_email : Option String
  author_date : Nat
  message_title : String
  message_body : Option String
  additions : Nat
  deletions : Nat
  total_changes : Nat
  repository : String
deriving DecidableEq, Repr

/-- Modelled from the spec: the row written for a commit, recomputing
`total_changes = additions + deletions` at write time (§3, §4.2; the
backend write path is not in the source tree). -/
def upsertRow (c : Commit) : StoredCommit :=
  { sha := c.sha, author_name := c.author_name, author_email := c.author_email,
    author_date := c.author_date, message_title := c.message_title,
    message_body := c.message_body, additions := c.additions,
    deletions := c.deletions, total_changes := c.additions + c.deletions,
    repository := c.repository }

/-- Modelled from the spec: `CommitStore.upsert` (§4.2) — insert-or-update
keyed by the `sha` identifier, matching the `UNIQUE` constraint of
`data/schema.sql`; the backend write path is not in the source tree.  If a
row with the commit's sha exists it is overwritten in place, otherwise the
new row is appended. -/
def upsert (store : List StoredCommit) (c : Commit) : List StoredCommit :=
  if ∃ r ∈ store, r.sha = c.sha then
    store.map (fun r => if r.sha = c.sha then upsertRow c else r)
  else
    store ++ [upsertRow c]

/-- The commit identifier is unique within the store (the `sha UNIQUE`
constraint of `data/schema.sql`). -/
def shaUnique (store : List StoredCommit) : Prop := (store.map (·.sha)).Nodup

instance : DecidablePred shaUnique := fun store => by unfold shaUnique; infer_instance

/-- Every stored row satisfies `total_changes = additions + deletions`
(§3 of the spec). -/
def totalsConsistent (store : List StoredCommit) : Prop :=
  ∀ r ∈ store, r.total_changes = r.additions + r.deletions

/-- The CommitStore invariant of §3: unique identifiers and consistent
derived totals. -/
def CommitStoreInv (store : List StoredCommit) : Prop :=
  shaUnique store ∧ totalsConsistent store

instance : DecidablePred CommitStoreInv := fun store => by
  unfold CommitStoreInv shaUnique totalsConsistent; infer_instance

/-! ### AnalyticsEngine (modelled from the spec; the backend is absent) -/

/-- The seven weekday buckets, in the fixed order the spec prescribes. -/
inductive Weekday where
  | sun | mon | tue | wed | thu | fri | sat
deriving DecidableEq, Repr

/-- The fixed `Sun..Sat` bucket order of §4.4. -/
def weekdays : List Weekday :=
  [.sun, .mon, .tue, .wed, .thu, .fri, .sat]

/-- Weekday of a day number (day 0 = 1970-01-01, a Thursday). -/
def dayOfWeek (days : Nat) : Weekday :=
  match days % 7 with
  | 0 => .thu
  | 1 => .fri
  | 2 => .sat
  | 3 => .sun
  | 4 => .mon
  | 5 => .tue
  | _ => .wed

/-- The four metrics of §4.4. -/
inductive MetricType where
  | commitCount | additions | deletions | totalChanges
deriving DecidableEq, Repr

/-- The contribution of one commit to a metric aggregate. -/
def metricValue : MetricType → StoredCommit → Nat
  | .commitCount, _ => 1
  | .additions, c => c.additions
  | .deletions, c => c.deletions
  | .totalChanges, c => c.total_changes

/-- Date-range membership, end inclusive (§6 fixes `end_date` as inclusive
of the whole day). -/
def inRange (startD endD : Nat) (c : StoredCommit) : Bool :=
  decide (startD ≤ c.author_date) && decide (c.author_date ≤ endD)

/-- Selection of a repository's commits in a range, optionally filtered by
author equality (§4.2 `queryRange`). -/
def selectedCommits (store : List StoredCommit) (repo : String) (startD endD : Nat)
    (author : Option String) : List StoredCommit :=
  store.filter (fun c =>
    c.repository == repo && inRange startD endD c &&
      match author with
      | none => true
      | some a => c.author_name == a)

/-- Modelled from the spec: `AnalyticsEngine.getDayOfWeekActivity` (§4.4) —
the backend analytics code is not in the source tree.  Aggregates the metric
over the selected commits into the seven fixed `Sun..Sat` buckets; a bucket
with no commits is the sum over an empty list, i.e. present with value 0. -/
def getDayOfWeekActivity (store : List StoredCommit) (repo : String) (startD endD : Nat)
    (metric : MetricType) (author : Option String) : List (Weekday × Nat) :=
  weekdays.map (fun d =>
    (d, (((selectedCommits store repo startD endD author).filter
            (fun c => dayOfWeek c.author_date == d)).map (metricValue metric)).sum))

/-- Modelled from the spec: `AnalyticsEngine.getAuthors` (§4.4) — the
backend `/authors` handler is not in the source tree.  Distinct author
names of the repository's commits in the range, sorted ascending; the
frontend mock variant realises the same shape via
`Array.from(new Set(outliers.map(o => o.author))).sort()` (App.jsx). -/
def getAuthors (store : List StoredCommit) (repo : String) (startD endD : Nat) :
    List String :=
  List.insertionSort (fun a b => a ≤ b)
    (((store.filter (fun c => c.repository == repo && inRange startD endD c)).map
        (fun c => c.author_name)).dedup)

/-- Modelled from the spec: the fixed stop-word set of §4.4 (the spec does
not enumerate it; the property proved below does not depend on its
contents). -/
def stopWords : List String :=
  ["the", "a", "an", "and", "or", "of", "to", "in", "on", "for", "with", "is"]

/-- Modelled from the spec: the minimum token length of §4.4 (value not
fixed by the spec; the property proved below does not depend on it). -/
def minWordLength : Nat := 3

/-- Modelled from the spec: tokenization of §4.4 — lower-case, split on
non-alphanumeric characters (stripping punctuation), discard tokens below
the minimum length and stop words. -/
def tokenize (s : String) : List String :=
  (s.toLower.split (fun ch => !ch.isAlphanum)).filter
    (fun w => decide (minWordLength ≤ w.length) && !stopWords.contains w)

/-- Title and body of a commit message, as the word-frequency computation of
§4.4 consumes them. -/
def messageText (c : StoredCommit) : String :=
  c.message_title ++ " " ++ c.message_body.getD ""

/-- The (word, count) pairs of a token list, one pair per distinct word. -/
def wordCounts (tokens : List String) : List (String × Nat) :=
  tokens.dedup.map (fun w => (w, tokens.count w))

/-- The order of §4.4 on (word, count) pairs: count descending, ties broken
by lexical order of the word. -/
def freqLE (a b : String × Nat) : Prop :=
  b.2 < a.2 ∨ (a.2 = b.2 ∧ a.1 ≤ b.1)

instance : DecidableRel freqLE := fun a b => by unfold freqLE; infer_instance

instance : IsTotal (String × Nat) freqLE where
  total a b := by
    unfold freqLE
    rcases Nat.lt_trichotomy a.2 b.2 with h | h | h
    · exact Or.inr (Or.inl h)
    · rcases le_total a.1 b.1 with hs | hs
      · exact Or.inl (Or.inr ⟨h, hs⟩)
      · exact Or.inr (Or.inr ⟨h.symm, hs⟩)
    · exact Or.inl (Or.inl h)

instance : IsTrans (String × Nat) freqLE where
  trans a b c hab hbc := by
    unfold freqLE at hab hbc ⊢
    rcases hab with h1 | ⟨h1, h1s⟩ <;> rcases hbc with h2 | ⟨h2, h2s⟩
    · exact Or.inl (lt_trans h2 h1)
    · exact Or.inl (h2 ▸ h1)
    · exact Or.inl (h1 ▸ h2)
    · exact Or.inr ⟨h1.trans h2, le_trans h1s h2s⟩

/-- Modelled from the spec: `AnalyticsEngine.getWordFrequencies` (§4.4) —
the backend analytics code is not in the source tree.  Tokenizes the
selected commits' message titles and bodies, counts words, orders by count
descending with ties broken by lexical order, and truncates to `limit`. -/
def getWordFrequencies (store : List StoredCommit) (repo : String) (startD endD : Nat)
    (limit : Nat) : List (String × Nat) :=
  (List.insertionSort freqLE
    (wordCounts
      ((store.filter (fun c => c.repository == repo && inRange startD endD c)).flatMap
        (fun c => tokenize (messageText c))))).take limit

/-! ### Concrete sample data for witnesses -/

/-- A concrete commit used to instantiate theorems with hypotheses. -/
def sampleCommit : Commit :=
  { sha := "abc123", author_name := "Alice", author_email := none,
    author_date := 19900, message_title := "fix bug", message_body := none,
    additions := 3, deletions := 1, repository := "OpenRA/OpenRA" }

/-- A second concrete commit, sharing no sha with `sampleCommit`. -/
def sampleCommit2 : Commit :=
  { sha := "def456", author_name := "Bob", author_email := some "bob@example.com",
    author_date := 19901, message_title := "add feature", message_body := some "details",
    additions := 10, deletions := 2, repository := "OpenRA/OpenRA" }

/-! ## Theorems -/

/-- Claim C10: the mock analytics functions getAuthors, getMetrics and
getWordCloud are deterministic (they are pure functions of their arguments)
and their outputs are independent of the startDate and endDate arguments:
two calls with different date ranges (and, for getMetrics, the same
metricType and author) return identical results. -/
theorem mock_analytics_range_independent (s1 e1 s2 e2 : String) :
    mockGetAuthors s1 e1 = mockGetAuthors s2 e2 ∧
    (∀ (mt : String) (a : Option String),
      mockGetMetrics s1 e1 mt a = mockGetMetrics s2 e2 mt a) ∧
    mockGetWordCloud s1 e1 = mockGetWordCloud s2 e2 :=
  ⟨rfl, fun _ _ => rfl, rfl⟩

/-- Claim C5: fetchData always returns a structured FetchResult whose
success flag is true exactly when the arrived response's status field
equals "success"; a failed call yields success = false with a message
present (the catch block supplies a fallback message), never an uncaught
fault — the embedding is a total function on call outcomes. -/
theorem fetchDataClient_success_iff (o : Except ApiFailure FetchResponse) :
    ((fetchDataClient o).success = true ↔
      ∃ r, o = Except.ok r ∧ r.status = "success") ∧
    (∀ e, o = Except.error e → (fetchDataClient o).message.isSome = true) := by
  cases o <;> simp [fetchDataClient]

/-- Claim C3 (counterexample): a failed authors call and a legitimately
empty successful authors call produce the very same value `[]`, and
likewise for outliers — a failure is not distinguishable from an empty
success in the value returned to the caller. -/
theorem failure_indistinguishable_from_empty :
    getAuthorsClient (Except.error { responseMessage := none }) =
      getAuthorsClient (Except.ok { authors := some [] }) ∧
    getOutliersClient (Except.error { responseMessage := none }) =
      getOutliersClient (Except.ok { commits := some [] }) :=
  ⟨rfl, rfl⟩

/-- Claim C3 (amended): an empty/no-data result is never reported as an
error — the analytics getters always return a plain list — but a failure is
returned as the same empty list as an empty success, so the two are not
distinguishable in the returned value: the result is empty exactly when the
call failed or the successful response carried no data. -/
theorem analytics_clients_empty_characterisation :
    (∀ x : Except ApiFailure AuthorsResponse,
      getAuthorsClient x = [] ↔
        (∃ e, x = Except.error e) ∨
        (∃ r, x = Except.ok r ∧ r.authors.getD [] = [])) ∧
    (∀ y : Except ApiFailure DeviationsResponse,
      getOutliersClient y = [] ↔
        (∃ e, y = Except.error e) ∨
        (∃ r, y = Except.ok r ∧ r.commits.getD [] = [])) := by
  constructor
  · intro x; cases x <;> simp [getAuthorsClient]
  · intro y; cases y <;> simp [getOutliersClient, List.map_eq_nil_iff]

/-- Replacing a row by the freshly written row for a commit with the same
sha leaves the row's sha unchanged. -/
theorem sha_of_replace (c : Commit) (r : StoredCommit) :
    (if r.sha = c.sha then upsertRow c else r).sha = r.sha := by
  split
  · rename_i hs
    rw [hs]
    rfl
  · rfl

/-- When a row with the commit's sha is present, upsert rewrites rows in
place. -/
theorem upsert_pos (store : List StoredCommit) (c : Commit)
    (h : ∃ r ∈ store, r.sha = c.sha) :
    upsert store c = store.map (fun r => if r.sha = c.sha then upsertRow c else r) := by
  unfold upsert
  rw [if_pos h]

/-- When no row with the commit's sha is present, upsert appends the new
row. -/
theorem upsert_neg (store : List StoredCommit) (c : Commit)
    (h : ¬∃ r ∈ store, r.sha = c.sha) :
    upsert store c = store ++ [upsertRow c] := by
  unfold upsert
  rw [if_neg h]

/-- Upsert never changes the sequence of shas of pre-existing rows; it at
most appends the new sha. -/
theorem map_sha_upsert (store : List StoredCommit) (c : Commit) :
    (upsert store c).map (fun r => r.sha) =
      if ∃ r ∈ store, r.sha = c.sha then store.map (fun r => r.sha)
      else store.map (fun r => r.sha) ++ [c.sha] := by
  by_cases h : ∃ r ∈ store, r.sha = c.sha
  · rw [if_pos h, upsert_pos store c h, List.map_map]
    apply List.map_congr_left
    intro r _
    exact sha_of_replace c r
  · rw [if_neg h, upsert_neg store c h, List.map_append]
    rfl

/-- Applying the in-place rewrite twice is the same as applying it once. -/
theorem replace_idem (c : Commit) (r : StoredCommit) :
    (fun r => if r.sha = c.sha then upsertRow c else r)
        ((fun r => if r.sha = c.sha then upsertRow c else r) r) =
      (fun r => if r.sha = c.sha then upsertRow c else r) r := by
  by_cases hs : r.sha = c.sha
  · simp only [if_pos hs]
    have : (upsertRow c).sha = c.sha := rfl
    simp only [if_pos this]
  · simp only [if_neg hs]

/-- Upserting the same commit twice leaves the store exactly as after a
single upsert. -/
theorem upsert_upsert (store : List StoredCommit) (c : Commit) :
    upsert (upsert store c) c = upsert store c := by
  by_cases h : ∃ r ∈ store, r.sha = c.sha
  · rw [upsert_pos store c h]
    obtain ⟨r, hr, hsha⟩ := h
    have hmem : ∃ r2 ∈ store.map (fun r => if r.sha = c.sha then upsertRow c else r),
        r2.sha = c.sha := by
      refine ⟨upsertRow c, List.mem_map.mpr ⟨r, hr, ?_⟩, rfl⟩
      rw [if_pos hsha]
    rw [upsert_pos _ c hmem, List.map_map]
    apply List.map_congr_left
    intro r2 _
    exact replace_idem c r2
  · rw [upsert_neg store c h]
    have hmem : ∃ r2 ∈ store ++ [upsertRow c], r2.sha = c.sha :=
      ⟨upsertRow c, List.mem_append.mpr (Or.inr (List.mem_singleton.mpr rfl)), rfl⟩
    rw [upsert_pos _ c hmem, List.map_append]
    have h1 : store.map (fun r => if r.sha = c.sha then upsertRow c else r) = store := by
      have : ∀ r ∈ store, (if r.sha = c.sha then upsertRow c else r) = r := by
        intro r hr
        rw [if_neg (fun hs => h ⟨r, hr, hs⟩)]
      rw [List.map_congr_left this]
      exact List.map_id store
    have h2 : ([upsertRow c]).map (fun r => if r.sha = c.sha then upsertRow c else r) =
        [upsertRow c] := by
      have : (upsertRow c).sha = c.sha := rfl
      simp only [List.map_cons, List.map_nil, if_pos this]
    rw [h1, h2]

/-- After an upsert into a store with unique shas, the commit's sha indexes
exactly one row. -/
theorem upsert_count_one (store : List StoredCommit) (c : Commit) (h : shaUnique store) :
    ((upsert store c).map (fun r => r.sha)).count c.sha = 1 := by
  rw [map_sha_upsert]
  by_cases hex : ∃ r ∈ store, r.sha = c.sha
  · rw [if_pos hex]
    obtain ⟨r, hr, hsha⟩ := hex
    exact List.count_eq_one_of_mem h (List.mem_map.mpr ⟨r, hr, hsha⟩)
  · rw [if_neg hex, List.count_append]
    have h0 : (store.map (fun r => r.sha)).count c.sha = 0 := by
      rw [List.count_eq_zero]
      intro hmem
      obtain ⟨r, hr, hsha⟩ := List.mem_map.mp hmem
      exact hex ⟨r, hr, hsha⟩
    rw [h0]
    simp

/-- Claim C7: upserting the same commit twice into the CommitStore yields
exactly one row keyed by its identifier, and the final store state is
identical to the state after a single upsert — upsert is idempotent. -/
theorem upsert_idempotent (store : List StoredCommit) (c : Commit)
    (h : shaUnique store) :
    upsert (upsert store c) c = upsert store c ∧
    ((upsert (upsert store c) c).map (fun r => r.sha)).count c.sha = 1 := by
  refine ⟨upsert_upsert store c, ?_⟩
  rw [upsert_upsert store c]
  exact upsert_count_one store c h

/-- Witness for C7 at the empty store and a concrete commit. -/
theorem upsert_idempotent_witness :
    shaUnique [] ∧
    (upsert (upsert [] sampleCommit) sampleCommit = upsert [] sampleCommit ∧
     ((upsert (upsert [] sampleCommit) sampleCommit).map (fun r => r.sha)).count
        sampleCommit.sha = 1) :=
  ⟨by decide, upsert_idempotent [] sampleCommit (by decide)⟩

/-- Upsert preserves uniqueness of shas in the store. -/
theorem upsert_shaUnique (store : List StoredCommit) (c : Commit)
    (h : shaUnique store) : shaUnique (upsert store c) := by
  unfold shaUnique at h ⊢
  rw [show (upsert store c).map (fun r => r.sha) = (upsert store c).map (·.sha) from rfl] at *
  rw [map_sha_upsert]
  by_cases hex : ∃ r ∈ store, r.sha = c.sha
  · rw [if_pos hex]
    exact h
  · rw [if_neg hex]
    refine List.Nodup.append h (List.nodup_singleton c.sha) ?_
    intro a ha hb
    obtain ⟨r, hr, hsha⟩ := List.mem_map.mp ha
    rw [List.mem_singleton] at hb
    exact hex ⟨r, hr, by rw [hsha, hb]⟩

/-- Upsert preserves the derived-total consistency of the store: the
freshly written row satisfies it by construction, untouched rows by
assumption. -/
theorem upsert_totalsConsistent (store : List StoredCommit) (c : Commit)
    (h : totalsConsistent store) : totalsConsistent (upsert store c) := by
  intro r hr
  unfold upsert at hr
  split at hr
  · obtain ⟨r0, hr0, heq⟩ := List.mem_map.mp hr
    by_cases hs : r0.sha = c.sha
    · rw [if_pos hs] at heq
      rw [heq.symm]
      rfl
    · rw [if_neg hs] at heq
      exact heq ▸ h r0 hr0
  · rcases List.mem_append.mp hr with hmem | hmem
    · exact h r hmem
    · rw [List.mem_singleton] at hmem
      rw [hmem]
      rfl

/-- Claim C8: the CommitStore invariant — unique identifiers and
`total_changes = additions + deletions` at write time — holds of the empty
store and is preserved by every upsert; and the one aggregate derived from
commits in the source (the mock day-of-week data) preserves
total = additions + deletions pointwise per weekday. -/
theorem commitStore_invariant (store : List StoredCommit) (c : Commit)
    (h : CommitStoreInv store) :
    CommitStoreInv [] ∧
    CommitStoreInv (upsert store c) ∧
    totalChangesByDay =
      List.zipWith (fun a d => (a.1, a.2 + d.2)) additionsByDay deletionsByDay := by
  refine ⟨⟨List.nodup_nil, fun r hr => absurd hr (List.not_mem_nil r)⟩, ?_, by decide⟩
  obtain ⟨hu, ht⟩ := h
  exact ⟨upsert_shaUnique store c hu, upsert_totalsConsistent store c ht⟩

/-- Witness for C8 at a concrete one-row store and a concrete commit. -/
theorem commitStore_invariant_witness :
    CommitStoreInv [upsertRow sampleCommit] ∧
    (CommitStoreInv [] ∧
     CommitStoreInv (upsert [upsertRow sampleCommit] sampleCommit2) ∧
     totalChangesByDay =
       List.zipWith (fun a d => (a.1, a.2 + d.2)) additionsByDay deletionsByDay) :=
  ⟨by decide, commitStore_invariant [upsertRow sampleCommit] sampleCommit2 (by decide)⟩

/-- Every weekday is among the seven fixed buckets. -/
theorem mem_weekdays (d : Weekday) : d ∈ weekdays := by
  cases d <;> decide

/-- Claim C2: for every store, repository, range, metric and optional
author, the day-of-week activity result has exactly the seven weekday keys
Sun..Sat in the fixed order, and every weekday with no selected commits is
present with value 0, never omitted. -/
theorem getDayOfWeekActivity_complete (store : List StoredCommit) (repo : String)
    (startD endD : Nat) (metric : MetricType) (author : Option String) :
    (getDayOfWeekActivity store repo startD endD metric author).map Prod.fst = weekdays ∧
    ∀ d : Weekday,
      (selectedCommits store repo startD endD author).filter
          (fun c => dayOfWeek c.author_date == d) = [] →
      (d, 0) ∈ getDayOfWeekActivity store repo startD endD metric author := by
  constructor
  · unfold getDayOfWeekActivity
    rw [List.map_map]
    exact List.map_id weekdays
  · intro d hd
    unfold getDayOfWeekActivity
    refine List.mem_map.mpr ⟨d, mem_weekdays d, ?_⟩
    rw [hd]
    rfl

/-- Witness for C2 at the empty store: every weekday bucket is present with
value 0. -/
theorem getDayOfWeekActivity_complete_witness :
    ((getDayOfWeekActivity [] "OpenRA/OpenRA" 0 100 .commitCount none).map Prod.fst
        = weekdays ∧
      (Weekday.sat, 0) ∈ getDayOfWeekActivity [] "OpenRA/OpenRA" 0 100 .commitCount none) :=
  ⟨(getDayOfWeekActivity_complete [] "OpenRA/OpenRA" 0 100 .commitCount none).1,
   (getDayOfWeekActivity_complete [] "OpenRA/OpenRA" 0 100 .commitCount none).2
     Weekday.sat rfl⟩

/-- Claim C6: for every store, repository and range, getAuthors returns the
set of distinct author names appearing in that range — duplicate-free,
sorted in ascending order, and containing exactly the author names of the
repository's commits in the range. -/
theorem getAuthors_distinct_sorted (store : List StoredCommit) (repo : String)
    (startD endD : Nat) :
    (getAuthors store repo startD endD).Nodup ∧
    (getAuthors store repo startD endD).Sorted (fun a b => a ≤ b) ∧
    ∀ a : String,
      a ∈ getAuthors store repo startD endD ↔
        ∃ c ∈ store, (c.repository == repo && inRange startD endD c) = true ∧
          c.author_name = a := by
  refine ⟨?_, ?_, ?_⟩
  · unfold getAuthors
    exact (List.perm_insertionSort _ _).nodup_iff.mpr (List.nodup_dedup _)
  · exact List.sorted_insertionSort _ _
  · intro a
    unfold getAuthors
    rw [(List.perm_insertionSort _ _).mem_iff, List.mem_dedup, List.mem_map]
    constructor
    · rintro ⟨c, hc, hname⟩
      obtain ⟨hmem, hsel⟩ := List.mem_filter.mp hc
      exact ⟨c, hmem, hsel, hname⟩
    · rintro ⟨c, hmem, hsel, hname⟩
      exact ⟨c, List.mem_filter.mpr ⟨hmem, hsel⟩, hname⟩

/-- The words of `wordCounts` are exactly the deduplicated tokens, hence
pairwise distinct. -/
theorem wordCounts_fst_nodup (tokens : List String) :
    ((wordCounts tokens).map Prod.fst).Nodup := by
  unfold wordCounts
  rw [List.map_map]
  have : (Prod.fst ∘ fun w => (w, tokens.count w)) = fun w => w := rfl
  rw [this]
  exact (List.map_id tokens.dedup).symm ▸ List.nodup_dedup tokens

/-- A list is pairwise distinct in its first components when the list of
first components has no duplicates. -/
theorem pairwise_fst_ne_of_nodup_map {l : List (String × Nat)}
    (h : (l.map Prod.fst).Nodup) : l.Pairwise (fun a b => a.1 ≠ b.1) := by
  rw [List.Nodup, List.pairwise_map] at h
  exact h

/-- Claim C1: for every store, repository, range and limit, the word
frequencies are returned in an order that is strictly descending by count,
with ties broken by strict lexical order of the word, and truncated to at
most `limit` entries. -/
theorem getWordFrequencies_ordered (store : List StoredCommit) (repo : String)
    (startD endD : Nat) (limit : Nat) :
    (getWordFrequencies store repo startD endD limit).Pairwise
        (fun a b => b.2 < a.2 ∨ (a.2 = b.2 ∧ a.1 < b.1)) ∧
    (getWordFrequencies store repo startD endD limit).length ≤ limit := by
  unfold getWordFrequencies
  constructor
  · set tokens :=
      (store.filter (fun c => c.repository == repo && inRange startD endD c)).flatMap
        (fun c => tokenize (messageText c)) with htokens
    have hsorted : (List.insertionSort freqLE (wordCounts tokens)).Pairwise freqLE :=
      List.sorted_insertionSort freqLE (wordCounts tokens)
    have hnodup : ((List.insertionSort freqLE (wordCounts tokens)).map Prod.fst).Nodup :=
      (((List.perm_insertionSort freqLE (wordCounts tokens))).map Prod.fst).nodup_iff.mpr
        (wordCounts_fst_nodup tokens)
    have hne : (List.insertionSort freqLE (wordCounts tokens)).Pairwise
        (fun a b => a.1 ≠ b.1) := pairwise_fst_ne_of_nodup_map hnodup
    have hstrict : (List.insertionSort freqLE (wordCounts tokens)).Pairwise
        (fun a b => b.2 < a.2 ∨ (a.2 = b.2 ∧ a.1 < b.1)) := by
      refine (hsorted.and hne).imp ?_
      rintro a b ⟨hle, hab⟩
      rcases hle with hlt | ⟨heq, hword⟩
      · exact Or.inl hlt
      · exact Or.inr ⟨heq, lt_of_le_of_ne hword hab⟩
    exact hstrict.sublist (List.take_sublist limit _)
  · exact List.length_take_le limit _

/-- A digit character produced by `digitChar` always satisfies `isDigit`. -/
theorem digitChar_isDigit (n : Nat) : (digitChar n).isDigit = true := by
  have h : n % 10 < 10 := Nat.mod_lt n (by norm_num)
  unfold digitChar
  revert h
  generalize n % 10 = m
  intro h
  interval_cases m <;> decide

/-- `digitVal` inverts `digitChar` onto the last decimal digit. -/
theorem digitVal_digitChar (n : Nat) : digitVal (digitChar n) = n % 10 := by
  have h : n % 10 < 10 := Nat.mod_lt n (by norm_num)
  unfold digitChar digitVal
  revert h
  generalize n % 10 = m
  intro h
  interval_cases m <;> decide

/-- Within the four-digit-year regime the serialised date matches the
client's `YYYY-MM-DD` test. -/
theorem isYYYYMMDD_isoDate {dt : JSDate} (h : dt.year < 10000) :
    isYYYYMMDD (isoDate dt) = true := by
  unfold isoDate
  rw [if_pos h]
  simp [isYYYYMMDD, digitChar_isDigit]

/-- A string matching the `YYYY-MM-DD` test is not empty. -/
theorem ne_empty_of_isYYYYMMDD {s : String} (h : isYYYYMMDD s = true) : s ≠ "" := by
  intro he
  subst he
  simp [isYYYYMMDD] at h

/-- The serialised date is never the empty string (ten or thirteen
characters). -/
theorem isoDate_ne_empty (dt : JSDate) : isoDate dt ≠ "" := by
  unfold isoDate
  split <;> intro h <;> simpa using congrArg String.data h

/-- `formatDate` returns a string that already matches the `YYYY-MM-DD`
test unchanged. -/
theorem formatDate_of_isYYYYMMDD (parse : String → Option JSDate) {s : String}
    (h : isYYYYMMDD s = true) : formatDate parse (.str s) = some s := by
  simp only [formatDate]
  rw [if_neg (ne_empty_of_isYYYYMMDD h), if_pos h]

/-- `isoParse` accepts only component values a JavaScript `Date` can hold. -/
theorem isoParse_valid (s : String) (d : JSDate) (h : isoParse s = some d) :
    validJSDate d := by
  unfold isoParse isoParseChars at h
  split at h
  · split at h
    · split at h
      · rename_i hrange
        obtain rfl : _ = d := Option.some.injEq _ _ ▸ h
        obtain ⟨h1, h2, h3, h4, h5⟩ := hrange
        exact ⟨le_trans h1 (by norm_num), h2, h3, h4, h5⟩
      · exact absurd h (by simp)
    · exact absurd h (by simp)
  · split at h
    · split at h
      · rename_i hrange
        obtain rfl : _ = d := Option.some.injEq _ _ ▸ h
        obtain ⟨h1, h2, h3, h4, h5⟩ := hrange
        exact ⟨h1, h2, h3, h4, h5⟩
      · exact absurd h (by simp)
    · exact absurd h (by simp)
  · exact absurd h (by simp)

/-- `isoParse` round-trips the serialisation of every constructible date —
the model analogue of JavaScript parsing `toISOString` output back to the
same instant. -/
theorem isoParse_isoDate (d : JSDate) (h : validJSDate d) :
    isoParse (isoDate d) = some d := by
  obtain ⟨Y, M, D⟩ := d
  obtain ⟨hy, hm1, hm2, hd1, hd2⟩ := h
  simp only at hy hm1 hm2 hd1 hd2
  unfold isoDate
  by_cases hlt : Y < 10000
  · rw [if_pos hlt]
    show isoParseChars [digitChar (Y / 1000), digitChar (Y / 100), digitChar (Y / 10),
      digitChar Y, '-', digitChar (M / 10), digitChar M, '-', digitChar (D / 10),
      digitChar D] = some (JSDate.mk Y M D)
    simp only [isoParseChars]
    have hc : ((digitChar (Y / 1000)).isDigit && (digitChar (Y / 100)).isDigit &&
        (digitChar (Y / 10)).isDigit && (digitChar Y).isDigit && ('-' == '-') &&
        (digitChar (M / 10)).isDigit && (digitChar M).isDigit && ('-' == '-') &&
        (digitChar (D / 10)).isDigit && (digitChar D).isDigit) = true := by
      simp [digitChar_isDigit]
    rw [if_pos hc]
    simp only [digitVal_digitChar]
    rw [if_pos (by omega)]
    simp only [Option.some.injEq, JSDate.mk.injEq]
    refine ⟨by omega, by omega, by omega⟩
  · rw [if_neg hlt]
    show isoParseChars ['+', digitChar (Y / 100000), digitChar (Y / 10000),
      digitChar (Y / 1000), digitChar (Y / 100), digitChar (Y / 10), digitChar Y,
      '-', digitChar (M / 10), digitChar M, '-', digitChar (D / 10),
      digitChar D] = some (JSDate.mk Y M D)
    simp only [isoParseChars]
    have hc : ((digitChar (Y / 100000)).isDigit && (digitChar (Y / 10000)).isDigit &&
        (digitChar (Y / 1000)).isDigit && (digitChar (Y / 100)).isDigit &&
        (digitChar (Y / 10)).isDigit && (digitChar Y).isDigit && ('-' == '-') &&
        (digitChar (M / 10)).isDigit && (digitChar M).isDigit && ('-' == '-') &&
        (digitChar (D / 10)).isDigit && (digitChar D).isDigit) = true := by
      simp [digitChar_isDigit]
    rw [if_pos hc]
    simp only [digitVal_digitChar]
    rw [if_pos (by omega)]
    simp only [Option.some.injEq, JSDate.mk.injEq]
    refine ⟨by omega, by omega, by omega⟩

/-- Claim C9 (counterexample): the Date 10000-01-01 — constructible in
JavaScript, `new Date(Date.UTC(10000, 0, 1))` — is serialised by
`toISOString` in the expanded-year form "+010000-01-01", which is not a
`YYYY-MM-DD` string; and the non-empty string "hello", on which the host
parser yields an Invalid Date, makes `formatDate` throw (`none`) instead of
returning a string.  So `formatDate` does not map every non-empty Date or
string to a `YYYY-MM-DD` string. -/
theorem formatDate_not_always_yyyymmdd :
    validJSDate (JSDate.mk 10000 1 1) ∧
    formatDate isoParse (.date (JSDate.mk 10000 1 1)) = some "+010000-01-01" ∧
    isYYYYMMDD "+010000-01-01" = false ∧
    formatDate isoParse (.str "hello") = none :=
  ⟨by decide, by decide, by decide, by decide⟩

/-- Claim C9 (amended): for any host parser that yields only constructible
dates and round-trips `toISOString` output (as JavaScript's does),
`formatDate` maps a null/missing (or empty-string) input to the empty
string rather than failing; it maps every Date whose year fits in four
digits, and every non-empty string the host parses to such a date, to a
string matching the `YYYY-MM-DD` test; and it is idempotent on its
successful results: whenever it returns a string, re-formatting that string
returns it unchanged.  (A Date with a five-or-more-digit year serialises to
the expanded form instead, and an unparseable non-empty string throws — see
the counterexample.) -/
theorem formatDate_spec (parse : String → Option JSDate)
    (hv : ∀ s d, parse s = some d → validJSDate d)
    (hrt : ∀ d, validJSDate d → parse (isoDate d) = some d) :
    formatDate parse .nullish = some "" ∧
    (∀ d : JSDate, d.year < 10000 →
      formatDate parse (.date d) = some (isoDate d) ∧ isYYYYMMDD (isoDate d) = true) ∧
    (∀ (s : String) (d : JSDate), s ≠ "" → parse s = some d → d.year < 10000 →
      ∃ out, formatDate parse (.str s) = some out ∧ isYYYYMMDD out = true) ∧
    (∀ (x : DateInput) (out : String), validInput x →
      formatDate parse x = some out → formatDate parse (.str out) = some out) := by
  have hiso : ∀ d : JSDate, validJSDate d →
      formatDate parse (.str (isoDate d)) = some (isoDate d) := by
    intro d hd
    by_cases hm : isYYYYMMDD (isoDate d) = true
    · exact formatDate_of_isYYYYMMDD parse hm
    · simp only [formatDate]
      rw [if_neg (isoDate_ne_empty d), if_neg hm, hrt d hd]
      rfl
  refine ⟨rfl, ?_, ?_, ?_⟩
  · intro d hy
    exact ⟨rfl, isYYYYMMDD_isoDate hy⟩
  · intro s d hne hp hy
    simp only [formatDate]
    rw [if_neg hne]
    by_cases hm : isYYYYMMDD s = true
    · rw [if_pos hm]
      exact ⟨s, rfl, hm⟩
    · rw [if_neg hm, hp]
      exact ⟨isoDate d, rfl, isYYYYMMDD_isoDate hy⟩
  · intro x out hvx hout
    cases x with
    | nullish =>
      obtain rfl : "" = out := by simpa [formatDate] using hout
      simp [formatDate]
    | invalidDate =>
      exact absurd hout (by simp [formatDate])
    | date d =>
      obtain rfl : isoDate d = out := by simpa [formatDate] using hout
      exact hiso d hvx
    | str s =>
      by_cases hs : s = ""
      · subst hs
        obtain rfl : "" = out := by simpa [formatDate] using hout
        simp [formatDate]
      · by_cases hm : isYYYYMMDD s = true
        · obtain rfl : s = out := by
            simpa [formatDate_of_isYYYYMMDD parse hm] using hout
          exact formatDate_of_isYYYYMMDD parse hm
        · simp only [formatDate, if_neg hs, if_neg hm] at hout
          obtain ⟨d, hd, hout'⟩ := Option.map_eq_some'.mp hout
          obtain rfl : isoDate d = out := hout'
          exact hiso d (hv s d hd)

/-- Witness for the amended C9 theorem: the concrete host parser
`isoParse`, applied to the valid expanded-year date 10000-01-01, whose
serialisation "+010000-01-01" re-formats to itself. -/
theorem formatDate_spec_witness :
    validInput (DateInput.date (JSDate.mk 10000 1 1)) ∧
    formatDate isoParse (.date (JSDate.mk 10000 1 1)) = some "+010000-01-01" ∧
    formatDate isoParse (.str "+010000-01-01") = some "+010000-01-01" :=
  ⟨by decide, by decide,
   (formatDate_spec isoParse isoParse_valid isoParse_isoDate).2.2.2
     (.date (JSDate.mk 10000 1 1)) "+010000-01-01" (by decide) (by decide)⟩

/-- Witness for C5 at a concrete failed call outcome. -/
theorem fetchDataClient_success_iff_witness :
    ((fetchDataClient (Except.error (ApiFailure.mk none))).success = true ↔
      ∃ r, (Except.error (ApiFailure.mk none) : Except ApiFailure FetchResponse) =
          Except.ok r ∧ r.status = "success") ∧
    (fetchDataClient (Except.error (ApiFailure.mk none))).message.isSome = true :=
  ⟨(fetchDataClient_success_iff (Except.error (ApiFailure.mk none))).1,
   (fetchDataClient_success_iff (Except.error (ApiFailure.mk none))).2
     (ApiFailure.mk none) rfl⟩
